import Mathlib

/-!
Shallow embedding of the query engine of `app` (files `app/tools.py` and
`app/utils.py`): the structured CSV query executor `query_csv_data` and the
schema introspector `get_csv_schema`, together with proofs of the behavioural
claims about them.

A table is the in-memory image of the CSV after `pd.read_csv`: a list of
column names plus row-major cells.  Scalar cell values are integers (pandas
int64), floats (pandas float64, modelled exactly as rationals), strings, or
null (NaN).  `Value.vSqrt q` stands for the (generally irrational) square
root of `q`; it arises only as the output of the `std` aggregation, which
pandas computes as the square root of the sample variance.  Floating-point
rounding of pandas is not modelled: numeric arithmetic is exact.
-/

inductive Value where
  | vInt (n : ℤ)
  | vRat (q : ℚ)
  | vStr (s : String)
  | vSqrt (q : ℚ)
  | null
deriving DecidableEq, Repr

namespace Value

def isNull : Value → Bool
  | .null => true
  | _ => false

end Value

/-- Pandas elementwise `==` on cells: `NaN == x` is `False` for every `x`
(including `NaN == NaN`), integers and floats compare numerically
(`1 == 1.0` is `True`), and values of different kinds compare unequal. -/
def valueEq : Value → Value → Bool
  | .vInt a, .vInt b => a = b
  | .vInt a, .vRat b => (a : ℚ) = b
  | .vRat a, .vInt b => a = (b : ℚ)
  | .vRat a, .vRat b => a = b
  | .vStr a, .vStr b => a = b
  | .vSqrt a, .vSqrt b => a = b
  | _, _ => false

/-- Equality as used by `Series.isin`: unlike `==`, `isin` does match a NaN
cell against a NaN in the value list. -/
def isinEq : Value → Value → Bool
  | .null, .null => true
  | a, b => valueEq a b

/-- Strict lexicographic order on character lists by code point: the order
Python and pandas use on strings. -/
def charListLt : List Char → List Char → Bool
  | [], [] => false
  | [], _ :: _ => true
  | _ :: _, [] => false
  | a :: as, b :: bs =>
    if a.toNat < b.toNat then true
    else if b.toNat < a.toNat then false
    else charListLt as bs

def strLtB (a b : String) : Bool := charListLt a.data b.data

def strLeB (a b : String) : Bool := !strLtB b a

/-- Pandas elementwise `<` on cells: NaN comparisons are `False`.
Comparisons between values of different kinds are modelled as `False`;
pandas raises a `TypeError` there for typed columns, but no property in this
development depends on mixed-kind order comparisons. -/
def vLt : Value → Value → Bool
  | .vInt a, .vInt b => a < b
  | .vInt a, .vRat b => (a : ℚ) < b
  | .vRat a, .vInt b => a < (b : ℚ)
  | .vRat a, .vRat b => a < b
  | .vStr a, .vStr b => strLtB a b
  | .vSqrt a, .vSqrt b => a < b
  | _, _ => false

/-- Pandas elementwise `<=` on cells; NaN comparisons are `False`. -/
def vLe : Value → Value → Bool
  | .vInt a, .vInt b => a ≤ b
  | .vInt a, .vRat b => (a : ℚ) ≤ b
  | .vRat a, .vInt b => a ≤ (b : ℚ)
  | .vRat a, .vRat b => a ≤ b
  | .vStr a, .vStr b => strLeB a b
  | .vSqrt a, .vSqrt b => a ≤ b
  | _, _ => false

/-- Rank used to extend the per-kind orders to a total order for sorting. -/
def valueRank : Value → Nat
  | .vInt _ => 0
  | .vRat _ => 0
  | .vStr _ => 1
  | .vSqrt _ => 2
  | .null => 3

/-- Total order on cell values used for sorting (`sort_values`, and the
sorted group keys of `groupby`): the numeric order on numbers, the
lexicographic order on strings, different kinds ordered by `valueRank`.
Real pandas raises on mixed-kind sorts; columns loaded from a CSV are
homogeneous, so only the per-kind orders are ever exercised. -/
def sortValLe (a b : Value) : Bool :=
  match a, b with
  | .vInt x, .vInt y => x ≤ y
  | .vInt x, .vRat y => (x : ℚ) ≤ y
  | .vRat x, .vInt y => x ≤ (y : ℚ)
  | .vRat x, .vRat y => x ≤ y
  | .vStr x, .vStr y => strLeB x y
  | .vSqrt x, .vSqrt y => x ≤ y
  | _, _ => valueRank a ≤ valueRank b

/-- A row of cells; the i-th cell belongs to the i-th column of the frame. -/
abbrev Row := List Value

/-- A data frame: column names plus row-major cells. -/
abbrev Frame := List String × List Row

/-- One entry of `DataFrame.to_dict(orient="records")`: an association list
from column name to cell value, in column order. -/
abbrev Record := List (String × Value)

/-- The in-memory table produced by `pd.read_csv(settings.csv_path)`. -/
structure Table where
  cols : List String
  rows : List Row

/-- `df[col]` at one row: the cell in the (first) column named `c`, null if
there is no such column or the row is too short. -/
def cellOf (cols : List String) (r : Row) (c : String) : Value :=
  match cols.findIdx? (· == c) with
  | some i => r.getD i .null
  | none => .null

/-- `to_dict(orient="records")`.  Duplicate output column names (possible
only through a degenerate `select` such as `[c, c]`) are not modelled: a
Python dict would keep a single entry per name, the association list keeps
both. -/
def toRecords (fr : Frame) : List Record :=
  fr.2.map (fun r => fr.1.zip r)

/-- Dictionary access on a record, null when the key is absent. -/
def recVal (rec : Record) (s : String) : Value :=
  ((rec.find? (fun p => p.1 == s)).map Prod.snd).getD .null

/-! ### Stable sorting

`DataFrame.sort_values` is modelled as a stable insertion sort with nulls
placed last (pandas `na_position='last'`, for ascending and descending
alike).  The tie order of pandas' default sort kind is not documented; the
properties proved below do not depend on it. -/

def insertLe (le : Row → Row → Bool) (x : Row) : List Row → List Row
  | [] => [x]
  | y :: ys => if le x y then x :: y :: ys else y :: insertLe le x ys

def sortLeList (le : Row → Row → Bool) : List Row → List Row
  | [] => []
  | x :: xs => insertLe le x (sortLeList le xs)

/-- The row comparison used by `sort_values(s, ascending := !desc)`:
null keys last, otherwise the column order (flipped when descending). -/
def rowLe (cols : List String) (s : String) (desc : Bool) (r1 r2 : Row) : Bool :=
  let k1 := cellOf cols r1 s
  let k2 := cellOf cols r2 s
  if k1.isNull then k2.isNull
  else if k2.isNull then true
  else if desc then sortValLe k2 k1 else sortValLe k1 k2

/-! ### The `where` stage -/

/-- The operand of a comparison operator in a `where` entry: a scalar
literal or a list of literals. -/
inductive Operand where
  | scalar (v : Value)
  | arr (vs : List Value)
deriving DecidableEq, Repr

/-- One `where` condition: a bare scalar literal (equality), a list
(membership), or a mapping of operator name to operand. -/
inductive Cond where
  | lit (v : Value)
  | mem (vs : List Value)
  | ops (l : List (String × Operand))
deriving DecidableEq, Repr

/-- One comparison operator applied to the current rows, mirroring the
`if/elif` dispatch on the operator string.  An unrecognised operator prints
a warning and leaves the rows unchanged.  A comparison operator applied to a
list operand, or `$in`/`$nin` applied to a scalar, raises in pandas and is
modelled as an error. -/
def applyOp (cols : List String) (col : String) (rows : List Row) (op : String)
    (od : Operand) : Except String (List Row) :=
  if op = "$lt" then
    match od with
    | .scalar v => .ok (rows.filter (fun r => vLt (cellOf cols r col) v))
    | .arr _ => .error "ValueError"
  else if op = "$lte" then
    match od with
    | .scalar v => .ok (rows.filter (fun r => vLe (cellOf cols r col) v))
    | .arr _ => .error "ValueError"
  else if op = "$gt" then
    match od with
    | .scalar v => .ok (rows.filter (fun r => vLt v (cellOf cols r col)))
    | .arr _ => .error "ValueError"
  else if op = "$gte" then
    match od with
    | .scalar v => .ok (rows.filter (fun r => vLe v (cellOf cols r col)))
    | .arr _ => .error "ValueError"
  else if op = "$ne" then
    match od with
    | .scalar v => .ok (rows.filter (fun r => !valueEq (cellOf cols r col) v))
    | .arr _ => .error "ValueError"
  else if op = "$eq" then
    match od with
    | .scalar v => .ok (rows.filter (fun r => valueEq (cellOf cols r col) v))
    | .arr _ => .error "ValueError"
  else if op = "$in" then
    match od with
    | .arr vs => .ok (rows.filter (fun r => vs.any (isinEq (cellOf cols r col))))
    | .scalar _ => .error "TypeError"
  else if op = "$nin" then
    match od with
    | .arr vs => .ok (rows.filter (fun r => !vs.any (isinEq (cellOf cols r col))))
    | .scalar _ => .error "TypeError"
  else
    -- prints "Warning: Unsupported operator ..." and applies nothing
    .ok rows

/-- The inner loop over the operator mapping of one `where` entry. -/
def applyOps (cols : List String) (col : String) :
    List (String × Operand) → List Row → Except String (List Row)
  | [], rows => .ok rows
  | (op, od) :: rest, rows =>
    match applyOp cols col rows op od with
    | .error e => .error e
    | .ok rows2 => applyOps cols col rest rows2

/-- One `where` entry `col -> condition`; a column absent from the table is
skipped. -/
def applyCond (cols : List String) (rows : List Row) :
    String × Cond → Except String (List Row)
  | (col, cond) =>
    if cols.contains col then
      match cond with
      | .lit v => .ok (rows.filter (fun r => valueEq (cellOf cols r col) v))
      | .mem vs => .ok (rows.filter (fun r => vs.any (isinEq (cellOf cols r col))))
      | .ops l => applyOps cols col l rows
    else
      .ok rows

/-- The `where` loop.  A `None` or empty `where` is the empty list. -/
def applyWhere (cols : List String) :
    List (String × Cond) → List Row → Except String (List Row)
  | [], rows => .ok rows
  | c :: cs, rows =>
    match applyCond cols rows c with
    | .error e => .error e
    | .ok rows2 => applyWhere cols cs rows2

/-! ### Aggregation -/

/-- The value under a column in the `agg` dict: a single function name or a
list of function names. -/
inductive AggVal where
  | one (f : String)
  | many (fs : List String)
deriving DecidableEq, Repr

/-- `funcs = [funcs] if isinstance(funcs, str)`. -/
def funcsOf : AggVal → List String
  | .one f => [f]
  | .many fs => fs

/-- The aggregation function names with a dispatch branch in the code. -/
def supportedAgg (f : String) : Bool :=
  f = "mean" || f = "count" || f = "sum" || f = "min" || f = "max" || f = "std"

/-- The numeric content of a cell, when it has one. -/
def ratOf : Value → Option ℚ
  | .vInt n => some (n : ℚ)
  | .vRat q => some q
  | _ => none

def intOf : Value → Option ℤ
  | .vInt n => some n
  | _ => none

def strOf : Value → Option String
  | .vStr s => some s
  | _ => none

/-- `Series.sum()` (skipna): an int64 column sums to an integer, a float64
(or int/float-mixed) column to a float, an all-string column concatenates;
an empty or all-null column sums to `0`.  Mixed string/number columns raise
in real pandas and cannot come from a CSV; here the string branch
concatenates whatever strings are present. -/
def pdSum (vs : List Value) : Value :=
  let ws := vs.filter (fun v => !v.isNull)
  if ws.all (fun v => (intOf v).isSome) then
    .vInt ((ws.filterMap intOf).foldl (· + ·) 0)
  else if ws.all (fun v => (ratOf v).isSome) then
    .vRat ((ws.filterMap ratOf).foldl (· + ·) 0)
  else
    .vStr ((ws.filterMap strOf).foldl (· ++ ·) "")

/-- `Series.count()`: the number of non-null cells (an int64). -/
def pdCount (vs : List Value) : Value :=
  .vInt ((vs.filter (fun v => !v.isNull)).length : ℤ)

/-- `Series.min()` (skipna): null on an empty or all-null column, otherwise
the least value; pandas orders strings lexicographically.  Mixed-kind
columns (impossible from a CSV) keep the first value on incomparable
pairs. -/
def pdMin (vs : List Value) : Value :=
  match vs.filter (fun v => !v.isNull) with
  | [] => .null
  | w :: rest => rest.foldl (fun acc v => if vLt v acc then v else acc) w

/-- `Series.max()` (skipna). -/
def pdMax (vs : List Value) : Value :=
  match vs.filter (fun v => !v.isNull) with
  | [] => .null
  | w :: rest => rest.foldl (fun acc v => if vLt acc v then v else acc) w

/-- `Series.mean()` (skipna): the exact rational mean of the numeric cells
(a float even on an int64 column), NaN when there are none.  (On a string
column pandas raises; that case is modelled as null and never arises from
the claims.) -/
def pdMean (vs : List Value) : Value :=
  let qs := vs.filterMap ratOf
  if qs.isEmpty then .null else .vRat (qs.foldl (· + ·) 0 / (qs.length : ℚ))

/-- `Series.std()` (sample standard deviation, `ddof=1`, skipna): NaN with
fewer than two numeric cells, otherwise the square root of the sample
variance, recorded exactly via `Value.vSqrt`. -/
def pdStd (vs : List Value) : Value :=
  let qs := vs.filterMap ratOf
  if qs.length < 2 then .null
  else
    let m := qs.foldl (· + ·) 0 / (qs.length : ℚ)
    .vSqrt ((qs.foldl (fun acc x => acc + (x - m) * (x - m)) 0) / ((qs.length : ℚ) - 1))

/-- Dispatch on the aggregation function name, mirroring the `if/elif`
chain of the code; callers only pass names accepted by `supportedAgg`. -/
def aggApply (f : String) (vs : List Value) : Value :=
  if f = "mean" then pdMean vs
  else if f = "count" then pdCount vs
  else if f = "sum" then pdSum vs
  else if f = "min" then pdMin vs
  else if f = "max" then pdMax vs
  else if f = "std" then pdStd vs
  else .null

/-- Keep the first entry for each key, as a Python dict does when the same
output field name is assigned twice (possible only when `agg` repeats a
function name for a column; both assignments carry the same value). -/
def dedupFst (l : List (String × String × String)) : List (String × String × String) :=
  l.foldl (fun acc p => if acc.any (fun q => q.1 == p.1) then acc else acc ++ [p]) []

/-- The `(output field, column, function)` triples produced by the `agg`
loop: columns absent from the table are skipped, unsupported function names
are skipped, the field name is `"{col}_{func}"`. -/
def aggPairs (cols : List String) (aggL : List (String × AggVal)) :
    List (String × String × String) :=
  dedupFst (((aggL.filter (fun p => cols.contains p.1)).map (fun p =>
    (funcsOf p.2).filterMap (fun f =>
      if supportedAgg f then some (p.1 ++ "_" ++ f, p.1, f) else none))).flatten)

/-- The aggregation branch without `group_by`:
`result_df = pd.DataFrame(agg_results)` — one row of aggregate fields, or an
empty frame when no field was produced. -/
def simpleAgg (cols : List String) (rows : List Row)
    (aggL : List (String × AggVal)) : Frame :=
  let pairs := aggPairs cols aggL
  if pairs.isEmpty then ([], [])
  else (pairs.map (·.1),
        [pairs.map (fun p => aggApply p.2.2 (rows.map (fun r => cellOf cols r p.2.1)))])

/-- The tuple of group-key cells of one row. -/
def keyOf (cols : List String) (gby : List String) (r : Row) : List Value :=
  gby.map (cellOf cols r)

/-- First-seen deduplication of group keys (`groupby` partitions by value). -/
def dedupKeys (l : List (List Value)) : List (List Value) :=
  l.foldl (fun acc k => if acc.contains k then acc else acc ++ [k]) []

/-- Lexicographic order on group-key tuples (`groupby(sort=True)` orders the
groups by key). -/
def keyLe : List Value → List Value → Bool
  | [], _ => true
  | _ :: _, [] => false
  | a :: as, b :: bs => if a = b then keyLe as bs else sortValLe a b

/-- The grouped-aggregation branch.  `df.groupby(group_by)` raises a
`KeyError` when a grouping column is absent from the table; rows with a
null in any group-key column are dropped (`dropna=True`); groups are sorted
by key.  `pd.DataFrame(agg_results).reset_index()` yields the group-key
columns first, then one column per aggregate field — and, when no aggregate
field was produced, a frame with the single column `"index"` and no rows. -/
def groupAgg (cols : List String) (rows : List Row) (gby : List String)
    (aggL : List (String × AggVal)) : Except String Frame :=
  if !gby.all (fun g => cols.contains g) then .error "KeyError"
  else
    let pairs := aggPairs cols aggL
    if pairs.isEmpty then .ok (["index"], [])
    else
      let keys := sortLeList keyLe (dedupKeys (rows.filterMap (fun r =>
        let k := keyOf cols gby r
        if k.any (fun v => v.isNull) then none else some k)))
      .ok (gby ++ pairs.map (·.1),
           keys.map (fun k => k ++ pairs.map (fun p =>
             aggApply p.2.2 ((rows.filter (fun r => keyOf cols gby r == k)).map
               (fun r => cellOf cols r p.2.1)))))

/-! ### The pipeline -/

/-- The structured query: the keyword arguments of `query_csv_data`.  A
Python `None` is `none`; an explicitly supplied empty list/dict is `some []`
(both are falsy in the `if` tests of the code). -/
structure Query where
  select : Option (List String) := none
  whereClause : List (String × Cond) := []
  group_by : Option (List String) := none
  agg : Option (List (String × AggVal)) := none
  sort_by : Option String := none
  sort_desc : Bool := false

/-- Python truthiness of an optional list-valued argument. -/
def listTruthy (o : Option (List α)) : Bool :=
  match o with
  | none => false
  | some l => !l.isEmpty

/-- The sort stage: `if sort_by and sort_by in result_df.columns`. -/
def applySort (fr : Frame) (sb : Option String) (desc : Bool) : Frame :=
  match sb with
  | none => fr
  | some s =>
    if (!(s = "")) && fr.1.contains s then
      (fr.1, sortLeList (rowLe fr.1 s desc) fr.2)
    else fr

/-- Everything before the sort stage.  `.ok none` is the early
`return []` taken when `select` names a column absent from the table. -/
def preFrame (t : Table) (q : Query) : Except String (Option Frame) :=
  match applyWhere t.cols q.whereClause t.rows with
  | .error e => .error e
  | .ok rows =>
    if listTruthy q.group_by && listTruthy q.agg then
      match groupAgg t.cols rows (q.group_by.getD []) (q.agg.getD []) with
      | .error e => .error e
      | .ok fr => .ok (some fr)
    else if listTruthy q.agg then
      .ok (some (simpleAgg t.cols rows (q.agg.getD [])))
    else if listTruthy q.select then
      let sel := q.select.getD []
      if sel.any (fun c => !t.cols.contains c) then .ok none
      else .ok (some (sel, rows.map (fun r => sel.map (cellOf t.cols r))))
    else
      .ok (some (t.cols, rows))

/-- `query_csv_data` of `app/tools.py`: filter, group/aggregate or select,
sort, and convert to records. -/
def query_csv_data (t : Table) (q : Query) : Except String (List Record) :=
  match preFrame t q with
  | .error e => .error e
  | .ok none => .ok []
  | .ok (some fr) => .ok (toRecords (applySort fr q.sort_by q.sort_desc))

/-! ### Schema introspection -/

/-- One value of the schema dict of `get_csv_schema`. -/
structure ColInfo where
  type : String
  unique_values : Option (List Value) := none
  unique_count : Option Nat := none
  sample_values : Option (List Value) := none
  minVal : Option Value := none
  maxVal : Option Value := none
  meanVal : Option Value := none
deriving DecidableEq, Repr

/-- Python `round(x, 2)` on the exact mean.  (Python rounds half to even;
Mathlib's `round` rounds half up — the difference is invisible to every
property below.) -/
def round2 : Value → Value
  | .vRat q => .vRat (((round (q * 100) : ℤ) : ℚ) / 100)
  | v => v

/-- A CSV column has pandas dtype `object` exactly when not every entry
parses as a number, in which case every stored value is a string; the
classification tests for the presence of a string value. -/
def isStringLike (vs : List Value) : Bool :=
  vs.any (fun v => match v with | .vStr _ => true | _ => false)

/-- `Series.unique()`: distinct values in order of first appearance. -/
def dedupVals (l : List Value) : List Value :=
  l.foldl (fun acc v => if acc.contains v then acc else acc ++ [v]) []

/-- The per-column body of the `get_csv_schema` loop.  Columns that are not
string-like take the numeric branch (pandas gives an all-null CSV column
dtype `float64`); boolean dtypes, which fall through both branches in the
code, are not representable in `Value` and are not modelled. -/
def infoOf (vs : List Value) : ColInfo :=
  if isStringLike vs then
    let u := dedupVals (vs.filter (fun v => !v.isNull))
    if u.length ≤ 50 then
      { type := "object", unique_values := some u }
    else
      { type := "object", unique_count := some u.length,
        sample_values := some (u.take 10) }
  else
    { type := "float64", minVal := some (pdMin vs), maxVal := some (pdMax vs),
      meanVal := some (round2 (pdMean vs)) }

/-- The stored values of one column, in row order (`df[col]`). -/
def colVals (t : Table) (c : String) : List Value :=
  t.rows.map (fun r => cellOf t.cols r c)

/-- `get_csv_schema` of `app/utils.py` (duplicated in `app/__main__.py`). -/
def get_csv_schema (t : Table) : List (String × ColInfo) :=
  t.cols.map (fun c => (c, infoOf (colVals t c)))

/-! ### Derived notions and concrete tables used by the properties -/

/-- The operator names with a dispatch branch in the `where` loop. -/
def supportedOp (op : String) : Bool :=
  op = "$lt" || op = "$lte" || op = "$gt" || op = "$gte" ||
  op = "$ne" || op = "$eq" || op = "$in" || op = "$nin"

/-- The distinct non-null values of column `g` among `rows`, in first-seen
order: the group keys that `groupby` forms on the single column `g`. -/
def nonNullKeys (cols : List String) (rows : List Row) (g : String) : List Value :=
  dedupVals ((rows.map (fun r => cellOf cols r g)).filter (fun v => !v.isNull))

/-- The three-row freelancing table of the spec's concrete scenarios. -/
def fiverrTable : Table :=
  ⟨["Platform", "Earnings"],
   [[.vStr "Fiverr", .vInt 100], [.vStr "Upwork", .vInt 200], [.vStr "Fiverr", .vInt 300]]⟩

/-- A one-row table whose group-by column holds a null. -/
def nullKeyTable : Table := ⟨["g", "c"], [[.null, .vInt 1]]⟩

/-- A one-column string table with 60 distinct values. -/
def sixtyTable : Table :=
  ⟨["s"], (List.range 60).map (fun i => [Value.vStr (toString i)])⟩

/-- A two-row table used to exercise the sort stage. -/
def sortTable : Table := ⟨["a"], [[.vInt 2], [.vInt 1]]⟩

/-! ### Helper lemmas about sorting -/

theorem length_insertLe (le : Row → Row → Bool) (x : Row) (l : List Row) :
    (insertLe le x l).length = l.length + 1 := by
  induction l with
  | nil => rfl
  | cons y ys ih => by_cases h : le x y = true <;> simp [insertLe, h, ih]

theorem length_sortLeList (le : Row → Row → Bool) (l : List Row) :
    (sortLeList le l).length = l.length := by
  induction l with
  | nil => rfl
  | cons x xs ih => simp [sortLeList, length_insertLe, ih]

theorem mem_insertLe (le : Row → Row → Bool) (x : Row) (l : List Row) (a : Row) :
    a ∈ insertLe le x l ↔ a = x ∨ a ∈ l := by
  induction l with
  | nil => simp [insertLe]
  | cons y ys ih =>
    by_cases h : le x y = true <;> simp [insertLe, h, ih] <;> tauto

theorem mem_sortLeList (le : Row → Row → Bool) (l : List Row) (a : Row) :
    a ∈ sortLeList le l ↔ a ∈ l := by
  induction l with
  | nil => simp [sortLeList]
  | cons x xs ih => simp [sortLeList, mem_insertLe, ih]

theorem pairwise_insertLe (le : Row → Row → Bool)
    (total : ∀ a b, le a b = true ∨ le b a = true)
    (trans : ∀ a b c, le a b = true → le b c = true → le a c = true)
    (x : Row) (l : List Row) (h : l.Pairwise (fun a b => le a b = true)) :
    (insertLe le x l).Pairwise (fun a b => le a b = true) := by
  induction l with
  | nil => simp [insertLe]
  | cons y ys ih =>
    rcases List.pairwise_cons.mp h with ⟨hy, hys⟩
    by_cases hxy : le x y = true
    · simp only [insertLe, if_pos hxy]
      refine List.pairwise_cons.mpr ⟨?_, h⟩
      intro z hz
      rcases List.mem_cons.mp hz with hz2 | hz2
      · rw [hz2]; exact hxy
      · exact trans x y z hxy (hy z hz2)
    · simp only [insertLe, if_neg hxy]
      refine List.pairwise_cons.mpr ⟨?_, ih hys⟩
      intro z hz
      rw [mem_insertLe] at hz
      rcases hz with hz2 | hz2
      · rw [hz2]
        rcases total x y with h1 | h1
        · exact absurd h1 hxy
        · exact h1
      · exact hy z hz2

theorem pairwise_sortLeList (le : Row → Row → Bool)
    (total : ∀ a b, le a b = true ∨ le b a = true)
    (trans : ∀ a b c, le a b = true → le b c = true → le a c = true)
    (l : List Row) :
    (sortLeList le l).Pairwise (fun a b => le a b = true) := by
  induction l with
  | nil => simp [sortLeList]
  | cons x xs ih => exact pairwise_insertLe le total trans x _ ih

theorem charListLt_irrefl (x : List Char) : charListLt x x = false := by
  induction x with
  | nil => rfl
  | cons a as ih => simp [charListLt, ih]

theorem charListLt_trans (x y z : List Char) (h1 : charListLt x y = true)
    (h2 : charListLt y z = true) : charListLt x z = true := by
  induction x generalizing y z with
  | nil =>
    cases z with
    | nil => cases y <;> simp [charListLt] at h1 h2
    | cons c cs => rfl
  | cons a as ih =>
    cases y with
    | nil => simp [charListLt] at h1
    | cons b bs =>
      cases z with
      | nil => simp [charListLt] at h2
      | cons c cs =>
        simp only [charListLt] at h1 h2 ⊢
        by_cases hab : a.toNat < b.toNat
        · by_cases hbc : b.toNat < c.toNat
          · have hac : a.toNat < c.toNat := Nat.lt_trans hab hbc
            simp [hac]
          · by_cases hcb : c.toNat < b.toNat
            · rw [if_neg hbc, if_pos hcb] at h2
              simp at h2
            · have hac : a.toNat < c.toNat := by omega
              simp [hac]
        · by_cases hba : b.toNat < a.toNat
          · rw [if_neg hab, if_pos hba] at h1
            simp at h1
          · rw [if_neg hab, if_neg hba] at h1
            by_cases hbc : b.toNat < c.toNat
            · have hac : a.toNat < c.toNat := by omega
              simp [hac]
            · by_cases hcb : c.toNat < b.toNat
              · rw [if_neg hbc, if_pos hcb] at h2
                simp at h2
              · rw [if_neg hbc, if_neg hcb] at h2
                have hac : ¬a.toNat < c.toNat := by omega
                have hca : ¬c.toNat < a.toNat := by omega
                rw [if_neg hac, if_neg hca]
                exact ih bs cs h1 h2

theorem charListLt_connex (x y : List Char) (h1 : charListLt x y = false)
    (h2 : charListLt y x = false) : x = y := by
  induction x generalizing y with
  | nil =>
    cases y with
    | nil => rfl
    | cons b bs => simp [charListLt] at h1
  | cons a as ih =>
    cases y with
    | nil => simp [charListLt] at h2
    | cons b bs =>
      simp only [charListLt] at h1 h2
      by_cases hab : a.toNat < b.toNat
      · rw [if_pos hab] at h1
        simp at h1
      · by_cases hba : b.toNat < a.toNat
        · rw [if_pos hba] at h2
          simp at h2
        · rw [if_neg hab, if_neg hba] at h1
          rw [if_neg hba, if_neg hab] at h2
          have hn : a.toNat = b.toNat := by omega
          have hc : a = b := Char.eq_of_val_eq (UInt32.toNat.inj hn)
          rw [hc, ih bs h1 h2]

theorem strLtB_asymm (a b : String) (h : strLtB a b = true) : strLtB b a = false := by
  cases h2 : strLtB b a
  · rfl
  · have h3 := charListLt_trans _ _ _ h h2
    rw [charListLt_irrefl] at h3
    simp at h3

theorem strLeB_total (a b : String) : strLeB a b = true ∨ strLeB b a = true := by
  unfold strLeB
  cases h : strLtB b a
  · exact Or.inl rfl
  · right
    rw [strLtB_asymm b a h]
    rfl

theorem strLeB_trans (a b c : String) (h1 : strLeB a b = true) (h2 : strLeB b c = true) :
    strLeB a c = true := by
  simp only [strLeB, Bool.not_eq_true'] at h1 h2 ⊢
  cases hca : strLtB c a
  · rfl
  · exfalso
    cases hab : strLtB a b
    · have hdata : a.data = b.data := charListLt_connex a.data b.data hab h1
      rw [strLtB, hdata, ← strLtB] at hca
      rw [hca] at h2
      simp at h2
    · have h3 := charListLt_trans _ _ _ hca hab
      rw [show charListLt c.data b.data = strLtB c b from rfl, h2] at h3
      simp at h3

theorem sortValLe_total (a b : Value) : sortValLe a b = true ∨ sortValLe b a = true := by
  cases a <;> cases b <;> simp [sortValLe, valueRank] <;>
    first
      | exact le_total _ _
      | exact strLeB_total _ _
      | omega

theorem sortValLe_trans (a b c : Value) (h1 : sortValLe a b = true)
    (h2 : sortValLe b c = true) : sortValLe a c = true := by
  cases a <;> cases b <;> cases c <;>
    simp [sortValLe, valueRank] at h1 h2 ⊢ <;>
    first
      | exact le_trans h1 h2
      | exact_mod_cast le_trans h1 h2
      | exact le_trans (by exact_mod_cast h1) h2
      | exact le_trans h1 (by exact_mod_cast h2)
      | exact strLeB_trans _ _ _ h1 h2
      | omega

theorem rowLe_total (cols : List String) (s : String) (desc : Bool) (r1 r2 : Row) :
    rowLe cols s desc r1 r2 = true ∨ rowLe cols s desc r2 r1 = true := by
  simp only [rowLe]
  cases h1 : (cellOf cols r1 s).isNull <;> cases h2 : (cellOf cols r2 s).isNull <;>
    simp <;> cases desc <;> simp <;>
    first
      | exact sortValLe_total _ _
      | exact (sortValLe_total _ _).symm

theorem rowLe_trans (cols : List String) (s : String) (desc : Bool) (r1 r2 r3 : Row)
    (h1 : rowLe cols s desc r1 r2 = true) (h2 : rowLe cols s desc r2 r3 = true) :
    rowLe cols s desc r1 r3 = true := by
  simp only [rowLe] at h1 h2 ⊢
  cases e1 : (cellOf cols r1 s).isNull <;> cases e2 : (cellOf cols r2 s).isNull <;>
    cases e3 : (cellOf cols r3 s).isNull <;> simp [e1, e2, e3] at h1 h2 ⊢ <;>
    cases desc <;> simp_all <;>
    first
      | exact sortValLe_trans _ _ _ h2 h1
      | exact sortValLe_trans _ _ _ h1 h2

theorem sortValLe_not_vLt (a b : Value) (h : sortValLe a b = true) :
    vLt b a = false := by
  cases a <;> cases b <;> simp [sortValLe, vLt, valueRank] at h ⊢ <;>
    first
      | exact h
      | simpa [strLeB] using h

theorem vLt_null_left (b : Value) : vLt .null b = false := by cases b <;> rfl

theorem vLt_null_right (a : Value) : vLt a .null = false := by cases a <;> rfl

theorem asc_pair_not_vLt (a b : Value)
    (h : (if a.isNull then b.isNull else if b.isNull then true else sortValLe a b) = true) :
    vLt b a = false := by
  cases a <;> cases b <;>
    simp [Value.isNull, sortValLe, vLt, valueRank] at h ⊢ <;>
    first
      | exact h
      | simpa [strLeB] using h

theorem desc_pair_not_vLt (a b : Value)
    (h : (if a.isNull then b.isNull else if b.isNull then true else sortValLe b a) = true) :
    vLt a b = false := by
  cases a <;> cases b <;>
    simp [Value.isNull, sortValLe, vLt, valueRank] at h ⊢ <;>
    first
      | exact h
      | simpa [strLeB] using h

/-- The key fact behind the sortedness claims: a comparison-sorted pair is
never strictly decreasing in the sort column (nulls compare `False` both
ways, matching their placement at the end). -/
theorem rowLe_not_vLt (cols : List String) (s : String) (r1 r2 : Row)
    (h : rowLe cols s false r1 r2 = true) :
    vLt (cellOf cols r2 s) (cellOf cols r1 s) = false := by
  exact asc_pair_not_vLt _ _ h

theorem rowLe_not_vLt_desc (cols : List String) (s : String) (r1 r2 : Row)
    (h : rowLe cols s true r1 r2 = true) :
    vLt (cellOf cols r1 s) (cellOf cols r2 s) = false := by
  exact desc_pair_not_vLt _ _ h

/-! ### Helper lemmas about records, the sort stage and the where stage -/

theorem recVal_zip (cols : List String) (r : Row) (s : String) :
    recVal (cols.zip r) s = cellOf cols r s := by
  induction cols generalizing r with
  | nil => cases r <;> rfl
  | cons c cs ih =>
    cases r with
    | nil =>
      simp [recVal, cellOf, List.findIdx?]
      split <;> rfl
    | cons v vs =>
      by_cases h : c = s
      · subst h
        simp [recVal, cellOf, List.findIdx?_cons, List.find?]
      · have hcs : (c == s) = false := by simp [h]
        have h1 : recVal ((c, v) :: cs.zip vs) s = recVal (cs.zip vs) s := by
          simp [recVal, List.find?, hcs]
        have h2 : cellOf (c :: cs) (v :: vs) s = cellOf cs vs s := by
          simp only [cellOf, List.findIdx?_cons, hcs]
          rw [List.findIdx?_succ]
          cases hfi : cs.findIdx? (· == s) <;> simp [hfi]
        simp only [List.zip_cons_cons, h1, h2, ih]

theorem applySort_cols (fr : Frame) (sb : Option String) (desc : Bool) :
    (applySort fr sb desc).1 = fr.1 := by
  cases sb with
  | none => rfl
  | some s =>
    simp only [applySort]
    split <;> rfl

theorem applySort_rows (fr : Frame) (sb : Option String) (desc : Bool) :
    (applySort fr sb desc).2 = fr.2 ∨
      ∃ s, (applySort fr sb desc).2 = sortLeList (rowLe fr.1 s desc) fr.2 := by
  cases sb with
  | none => exact Or.inl rfl
  | some s =>
    simp only [applySort]
    split
    · exact Or.inr ⟨s, rfl⟩
    · exact Or.inl rfl

theorem length_applySort (fr : Frame) (sb : Option String) (desc : Bool) :
    (applySort fr sb desc).2.length = fr.2.length := by
  rcases applySort_rows fr sb desc with h | ⟨s, h⟩ <;> rw [h]
  rw [length_sortLeList]

theorem mem_applySort (fr : Frame) (sb : Option String) (desc : Bool) (r : Row) :
    r ∈ (applySort fr sb desc).2 ↔ r ∈ fr.2 := by
  rcases applySort_rows fr sb desc with h | ⟨s, h⟩ <;> rw [h]
  rw [mem_sortLeList]

theorem applySort_single (cols : List String) (r : Row) (sb : Option String)
    (desc : Bool) : applySort (cols, [r]) sb desc = (cols, [r]) := by
  cases sb with
  | none => rfl
  | some s =>
    simp only [applySort]
    split <;> simp [sortLeList, insertLe]

theorem applyOp_unsupported (cols : List String) (col : String) (rows : List Row)
    (op : String) (od : Operand) (h : supportedOp op = false) :
    applyOp cols col rows op od = .ok rows := by
  simp only [supportedOp, Bool.or_eq_false_iff, decide_eq_false_iff_not] at h
  obtain ⟨⟨⟨⟨⟨⟨⟨h1, h2⟩, h3⟩, h4⟩, h5⟩, h6⟩, h7⟩, h8⟩ := h
  simp [applyOp, h1, h2, h3, h4, h5, h6, h7, h8]

theorem applyWhere_append (cols : List String) (l1 l2 : List (String × Cond))
    (rows : List Row) :
    applyWhere cols (l1 ++ l2) rows =
      match applyWhere cols l1 rows with
      | .error e => .error e
      | .ok r2 => applyWhere cols l2 r2 := by
  induction l1 generalizing rows with
  | nil => rfl
  | cons c cs ih =>
    simp only [List.cons_append, applyWhere]
    cases applyCond cols rows c <;> simp [ih]

theorem applyWhere_cond_congr (cols : List String) (pre post : List (String × Cond))
    (e1 e2 : String × Cond)
    (h : ∀ rows, applyCond cols rows e1 = applyCond cols rows e2) (rows : List Row) :
    applyWhere cols (pre ++ e1 :: post) rows = applyWhere cols (pre ++ e2 :: post) rows := by
  rw [applyWhere_append, applyWhere_append]
  cases applyWhere cols pre rows with
  | error e => rfl
  | ok r2 => simp only [applyWhere, h r2]

theorem query_where_congr (t : Table) (q : Query) (w1 w2 : List (String × Cond))
    (h : applyWhere t.cols w1 t.rows = applyWhere t.cols w2 t.rows) :
    query_csv_data t { q with whereClause := w1 } =
      query_csv_data t { q with whereClause := w2 } := by
  simp only [query_csv_data, preFrame, h]

/-! ### Helper lemmas about deduplication and the aggregation stage -/

theorem mem_dedupFst (p : String × String × String) (l : List (String × String × String))
    (h : p ∈ dedupFst l) : p ∈ l := by
  suffices H : ∀ acc, p ∈ l.foldl
      (fun acc q => if acc.any (fun q2 => q2.1 == q.1) then acc else acc ++ [q]) acc →
      p ∈ acc ∨ p ∈ l by
    rcases H [] h with h2 | h2
    · cases h2
    · exact h2
  clear h
  induction l with
  | nil => intro acc h2; exact Or.inl h2
  | cons q qs ih =>
    intro acc h2
    simp only [List.foldl_cons] at h2
    rcases ih (if (acc.any fun q2 => q2.1 == q.1) = true then acc else acc ++ [q]) h2
      with h3 | h3
    · by_cases hq : (acc.any (fun q2 => q2.1 == q.1)) = true
      · rw [if_pos hq] at h3
        exact Or.inl h3
      · rw [if_neg hq] at h3
        rcases List.mem_append.mp h3 with h4 | h4
        · exact Or.inl h4
        · simp at h4
          exact Or.inr (by simp [h4])
    · exact Or.inr (List.mem_cons_of_mem q h3)

theorem dedupKeys_map_singleton (l : List Value) :
    dedupKeys (l.map (fun v => [v])) = (dedupVals l).map (fun v => [v]) := by
  suffices H : ∀ acc : List Value,
      (l.map (fun v => [v])).foldl
        (fun acc k => if acc.contains k then acc else acc ++ [k]) (acc.map (fun v => [v])) =
      (l.foldl (fun acc v => if acc.contains v then acc else acc ++ [v]) acc).map
        (fun v => [v]) by
    have := H []
    simpa [dedupKeys, dedupVals] using this
  induction l with
  | nil => intro acc; rfl
  | cons v vs ih =>
    intro acc
    simp only [List.map_cons, List.foldl_cons]
    have hc : ((acc.map (fun v => [v])).contains [v]) = acc.contains v := by
      simp [List.contains_iff_exists_mem_beq]
    rw [hc]
    by_cases h : acc.contains v = true
    · rw [if_pos h, if_pos h]
      exact ih acc
    · rw [if_neg h, if_neg h]
      have : (acc ++ [v]).map (fun v => [v]) = acc.map (fun v => [v]) ++ [[v]] := by simp
      rw [← this]
      exact ih (acc ++ [v])

theorem filterMap_if_singleton (rows : List Row) (h : Row → Value) :
    rows.filterMap (fun r => if (h r).isNull then none else some [h r]) =
      ((rows.map h).filter (fun v => !v.isNull)).map (fun v => [v]) := by
  induction rows with
  | nil => rfl
  | cons r rs ih =>
    by_cases hn : (h r).isNull = true <;>
      simp [List.filterMap_cons, hn, ih]

theorem zip_self_map {β : Type} (l : List String) (f : String → β) :
    l.zip (l.map f) = l.map (fun a => (a, f a)) := by
  induction l with
  | nil => rfl
  | cons a as ih => simp [ih]

theorem applyOps_append (cols : List String) (col : String)
    (l1 l2 : List (String × Operand)) (rows : List Row) :
    applyOps cols col (l1 ++ l2) rows =
      match applyOps cols col l1 rows with
      | .error e => .error e
      | .ok r2 => applyOps cols col l2 r2 := by
  induction l1 generalizing rows with
  | nil => rfl
  | cons o os ih =>
    rcases o with ⟨op, od⟩
    simp only [List.cons_append, applyOps]
    cases applyOp cols col rows op od <;> simp [ih]

/-! ### The claims -/

/-- C10: a query whose `select` is the empty list behaves exactly as if
`select` were absent (`if select:` is false for an empty list): filtered
rows keep all their columns, and in particular the plain query with
`select = []` returns every row with every column. -/
theorem select_empty_list_like_absent (t : Table) (q : Query) :
    (query_csv_data t { q with select := some [] } =
      query_csv_data t { q with select := none }) ∧
    query_csv_data t { select := some [] } = .ok (toRecords (t.cols, t.rows)) := by
  constructor
  · simp [query_csv_data, preFrame, listTruthy]
  · rfl

/-- C9: `group_by` without `agg` has no effect — the `group_by and agg`
test fails, the plain selection path is taken, and the result is the same
as for the identical query with `group_by` absent. -/
theorem group_by_without_agg_no_effect (t : Table) (q : Query) (gs : List String)
    (hgb : q.group_by = some gs) (hagg : listTruthy q.agg = false) :
    query_csv_data t q = query_csv_data t { q with group_by := none } := by
  simp [query_csv_data, preFrame, hagg]

theorem group_by_without_agg_no_effect_w :
    query_csv_data fiverrTable { group_by := some ["Nope"] } =
      query_csv_data fiverrTable { group_by := none } :=
  group_by_without_agg_no_effect fiverrTable { group_by := some ["Nope"] } ["Nope"] rfl rfl

/-- C7: filtering with a bare scalar (`{col: v}`) and with the `$eq`
operator (`{col: {"$eq": v}}`) are observationally identical — both
evaluate the same elementwise equality `df[col] == v`, with the same
null semantics, wherever the entry occurs in the `where` mapping. -/
theorem bare_scalar_eq_equiv_dollar_eq (t : Table) (q : Query)
    (pre post : List (String × Cond)) (col : String) (v : Value) :
    query_csv_data t { q with whereClause := pre ++ (col, Cond.lit v) :: post } =
      query_csv_data t { q with whereClause :=
        pre ++ (col, Cond.ops [("$eq", Operand.scalar v)]) :: post } := by
  apply query_where_congr
  apply applyWhere_cond_congr
  intro rows
  by_cases h : t.cols.contains col = true
  · simp only [applyCond, if_pos h]
    rfl
  · simp only [applyCond, if_neg h]

/-- C6: an operator name outside `{$lt, $lte, $gt, $gte, $ne, $eq, $in,
$nin}` falls through to the warning branch and is not applied: removing it
from the operator mapping leaves the query's result unchanged, and a query
whose only condition is such an operator returns all rows. -/
theorem unknown_operator_ignored (t : Table) (q : Query)
    (pre post : List (String × Cond)) (col : String)
    (ops1 ops2 : List (String × Operand)) (op : String) (od : Operand)
    (hop : supportedOp op = false) :
    (query_csv_data t { q with whereClause :=
        pre ++ (col, Cond.ops (ops1 ++ (op, od) :: ops2)) :: post } =
      query_csv_data t { q with whereClause :=
        pre ++ (col, Cond.ops (ops1 ++ ops2)) :: post }) ∧
    query_csv_data t { whereClause := [(col, Cond.ops [(op, od)])] } =
      .ok (toRecords (t.cols, t.rows)) := by
  constructor
  · apply query_where_congr
    apply applyWhere_cond_congr
    intro rows
    by_cases h : t.cols.contains col = true
    · simp only [applyCond, if_pos h]
      rw [applyOps_append, applyOps_append]
      cases applyOps t.cols col ops1 rows with
      | error e => rfl
      | ok r2 =>
        simp only [applyOps, applyOp_unsupported t.cols col r2 op od hop]
    · simp only [applyCond, if_neg h]
  · have hw : applyWhere t.cols [(col, Cond.ops [(op, od)])] t.rows = .ok t.rows := by
      by_cases h : t.cols.contains col = true
      · simp only [applyWhere, applyCond, if_pos h, applyOps,
          applyOp_unsupported t.cols col t.rows op od hop]
      · simp only [applyWhere, applyCond, if_neg h]
    simp only [query_csv_data, preFrame, hw]
    rfl

theorem unknown_operator_ignored_w :
    (query_csv_data fiverrTable
        { whereClause := [("Earnings", Cond.ops [("$foo", Operand.scalar (.vInt 5))])] } =
      query_csv_data fiverrTable { whereClause := [("Earnings", Cond.ops [])] }) ∧
    query_csv_data fiverrTable
        { whereClause := [("Earnings", Cond.ops [("$foo", Operand.scalar (.vInt 5))])] } =
      .ok (toRecords (fiverrTable.cols, fiverrTable.rows)) :=
  unknown_operator_ignored fiverrTable {} [] [] "Earnings" [] [] "$foo"
    (Operand.scalar (.vInt 5)) rfl

/-- C1 (amended): an unknown column in `group_by` is *not* silently ignored
in general.  When `agg` is absent or empty the grouping branch is not taken
and `group_by` has no effect; but when `agg` is non-empty,
`df.groupby(group_by)` raises a `KeyError` that escapes `query_csv_data`. -/
theorem group_by_unknown_column_behaviour :
    (∀ (t : Table) (q : Query) (gs : List String), q.group_by = some gs →
      listTruthy q.agg = false →
      query_csv_data t q = query_csv_data t { q with group_by := none }) ∧
    (∀ (t : Table) (q : Query) (g : String) (rows : List Row),
      listTruthy q.group_by = true → listTruthy q.agg = true →
      g ∈ q.group_by.getD [] → t.cols.contains g = false →
      applyWhere t.cols q.whereClause t.rows = .ok rows →
      query_csv_data t q = .error "KeyError") := by
  constructor
  · intro t q gs hgb hagg
    simp [query_csv_data, preFrame, hagg]
  · intro t q g rows hgb hagg hg hcol hw
    have hko : ((q.group_by.getD []).all (fun g2 => t.cols.contains g2)) = false := by
      cases hall : (q.group_by.getD []).all (fun g2 => t.cols.contains g2)
      · rfl
      · rw [List.all_eq_true] at hall
        have h2 := hall g hg
        have hmem : g ∉ t.cols := by simpa using hcol
        exact absurd (by simpa using h2) hmem
    have hga : groupAgg t.cols rows (q.group_by.getD []) (q.agg.getD []) =
        .error "KeyError" := by
      unfold groupAgg
      rw [if_pos (by rw [hko]; rfl)]
    simp [query_csv_data, preFrame, hw, hgb, hagg, hga]

theorem group_by_unknown_column_behaviour_w :
    (query_csv_data fiverrTable { group_by := some ["Nope2"] } =
      query_csv_data fiverrTable { group_by := none }) ∧
    query_csv_data fiverrTable
        { group_by := some ["Nope"], agg := some [("Earnings", AggVal.one "sum")] } =
      .error "KeyError" :=
  ⟨group_by_unknown_column_behaviour.1 fiverrTable { group_by := some ["Nope2"] }
      ["Nope2"] rfl rfl,
   group_by_unknown_column_behaviour.2 fiverrTable
      { group_by := some ["Nope"], agg := some [("Earnings", AggVal.one "sum")] }
      "Nope" fiverrTable.rows rfl rfl (by decide) (by decide) rfl⟩

/-- C1 (counterexample to the claim as stated): grouping by an unknown
column with an aggregation raises a `KeyError` that escapes the executor —
the grouping clause is not silently ignored and an exception does escape —
whereas the same query without the grouping clause succeeds. -/
theorem group_by_unknown_column_counterexample :
    query_csv_data fiverrTable
        { group_by := some ["Nope"], agg := some [("Earnings", AggVal.one "sum")] } =
      .error "KeyError" ∧
    query_csv_data fiverrTable
        { group_by := none, agg := some [("Earnings", AggVal.one "sum")] } =
      .ok [[("Earnings_sum", .vInt 600)]] := by
  constructor
  · rfl
  · rfl

/-- C4: a non-aggregating query with `select: [c1, c2]` (distinct columns).
If both columns exist, every record has exactly the keys `c1, c2` in that
order; if either is missing, the executor takes the early `return []` and
yields an empty result (shown whenever the filter stage succeeds). -/
theorem strict_select_projection (t : Table) (q : Query) (c1 c2 : String)
    (hsel : q.select = some [c1, c2]) (hagg : listTruthy q.agg = false)
    (hne : c1 ≠ c2) :
    (t.cols.contains c1 = true → t.cols.contains c2 = true →
      ∀ recs, query_csv_data t q = .ok recs →
        ∀ rec ∈ recs, rec.map Prod.fst = [c1, c2]) ∧
    ((t.cols.contains c1 = false ∨ t.cols.contains c2 = false) →
      ∀ rows, applyWhere t.cols q.whereClause t.rows = .ok rows →
      query_csv_data t q = .ok []) := by
  constructor
  · intro h1 h2 recs hq rec hrec
    rcases hwc : applyWhere t.cols q.whereClause t.rows with e | rows
    · simp [query_csv_data, preFrame, hwc] at hq
    · have m1 : c1 ∈ t.cols := by simpa using h1
      have m2 : c2 ∈ t.cols := by simpa using h2
      have hpf : preFrame t q = .ok (some ([c1, c2],
          rows.map (fun r => [c1, c2].map (cellOf t.cols r)))) := by
        simp only [preFrame, hwc]
        rw [hagg, hsel]
        simp [listTruthy, h1, h2, m1, m2]
      rw [query_csv_data, hpf] at hq
      simp only [Except.ok.injEq] at hq
      rw [← hq] at hrec
      simp only [toRecords] at hrec
      rcases List.mem_map.mp hrec with ⟨r, hr, hzip⟩
      rw [mem_applySort] at hr
      rcases List.mem_map.mp hr with ⟨r0, _, hproj⟩
      rw [← hzip, applySort_cols, ← hproj, zip_self_map]
      simp
  · intro hmiss rows hwc
    have hmiss2 : c1 ∉ t.cols ∨ c2 ∉ t.cols := by
      rcases hmiss with h | h
      · exact Or.inl (by simpa using h)
      · exact Or.inr (by simpa using h)
    have hpf : preFrame t q = .ok none := by
      simp only [preFrame, hwc]
      rw [hagg, hsel]
      simp [listTruthy, hmiss2]
    rw [query_csv_data, hpf]

theorem strict_select_projection_w :
    (∀ recs, query_csv_data fiverrTable { select := some ["Platform", "Earnings"] } =
        .ok recs → ∀ rec ∈ recs, rec.map Prod.fst = ["Platform", "Earnings"]) ∧
    query_csv_data fiverrTable { select := some ["Platform", "Nope"] } = .ok [] :=
  ⟨(strict_select_projection fiverrTable { select := some ["Platform", "Earnings"] }
      "Platform" "Earnings" rfl rfl (by decide)).1 rfl rfl,
   (strict_select_projection fiverrTable { select := some ["Platform", "Nope"] }
      "Platform" "Nope" rfl rfl (by decide)).2 (Or.inr (by decide)) fiverrTable.rows rfl⟩

/-- C3: when `sort_by` names a column of the current result shape (the
frame produced by the filter/aggregate/select stages), the executor sorts
the records by that column — ascending output is never strictly decreasing
in the column, descending output never strictly increasing (null keys are
placed last and compare `False` both ways) — and when the named column is
absent from the result shape, sorting is skipped and the rows come out in
their pre-sort order. -/
theorem sort_stage_sorted (t : Table) (q : Query) (s : String) (fr : Frame)
    (hpf : preFrame t q = .ok (some fr)) (hs : q.sort_by = some s) (hne : s ≠ "") :
    (fr.1.contains s = true →
      query_csv_data t q =
        .ok (toRecords (fr.1, sortLeList (rowLe fr.1 s q.sort_desc) fr.2)) ∧
      ∀ recs, query_csv_data t q = .ok recs →
        (q.sort_desc = false →
          recs.Pairwise (fun r1 r2 => vLt (recVal r2 s) (recVal r1 s) = false)) ∧
        (q.sort_desc = true →
          recs.Pairwise (fun r1 r2 => vLt (recVal r1 s) (recVal r2 s) = false))) ∧
    (fr.1.contains s = false → query_csv_data t q = .ok (toRecords fr)) := by
  have hq : query_csv_data t q = .ok (toRecords (applySort fr q.sort_by q.sort_desc)) := by
    rw [query_csv_data, hpf]
  constructor
  · intro hcon
    have hsort : applySort fr q.sort_by q.sort_desc =
        (fr.1, sortLeList (rowLe fr.1 s q.sort_desc) fr.2) := by
      rw [hs]
      simp only [applySort]
      have hpc : ((!decide (s = "")) && fr.1.contains s) = true := by
        rw [hcon, Bool.and_true]
        simpa using hne
      rw [if_pos hpc]
    refine ⟨by rw [hq, hsort], ?_⟩
    intro recs hrecs
    rw [hq, hsort] at hrecs
    simp only [Except.ok.injEq] at hrecs
    rw [← hrecs]
    have hpw := pairwise_sortLeList (rowLe fr.1 s q.sort_desc)
      (rowLe_total fr.1 s q.sort_desc) (rowLe_trans fr.1 s q.sort_desc) fr.2
    constructor
    · intro hdesc
      rw [hdesc] at hpw ⊢
      simp only [toRecords]
      rw [List.pairwise_map]
      refine hpw.imp ?_
      intro a b hab
      rw [recVal_zip, recVal_zip]
      exact rowLe_not_vLt fr.1 s a b hab
    · intro hdesc
      rw [hdesc] at hpw ⊢
      simp only [toRecords]
      rw [List.pairwise_map]
      refine hpw.imp ?_
      intro a b hab
      rw [recVal_zip, recVal_zip]
      exact rowLe_not_vLt_desc fr.1 s a b hab
  · intro hcon
    rw [hq, hs]
    simp only [applySort]
    have hnc : ¬(((!decide (s = "")) && fr.1.contains s) = true) := by
      rw [hcon, Bool.and_false]
      simp
    rw [if_neg hnc]

theorem sort_stage_sorted_w :
    query_csv_data sortTable { sort_by := some "a" } =
      .ok (toRecords (["a"], sortLeList (rowLe ["a"] "a" false) [[.vInt 2], [.vInt 1]])) :=
  ((sort_stage_sorted sortTable { sort_by := some "a" } "a"
      (["a"], [[.vInt 2], [.vInt 1]]) rfl rfl (by decide)).1 (by decide)).1

/-- C8: for a string-like column, the schema introspector reports the full
first-seen-ordered set of distinct non-null values when there are at most
50 of them, and otherwise the total distinct count together with the first
10 distinct values — a 10-item sample. -/
theorem schema_string_column (t : Table) (c : String) (hc : c ∈ t.cols)
    (hs : isStringLike (colVals t c) = true) :
    ((dedupVals ((colVals t c).filter (fun v => !v.isNull))).length ≤ 50 →
      (c, ({ type := "object",
             unique_values :=
               some (dedupVals ((colVals t c).filter (fun v => !v.isNull))) } : ColInfo))
        ∈ get_csv_schema t) ∧
    (50 < (dedupVals ((colVals t c).filter (fun v => !v.isNull))).length →
      ((c, ({ type := "object",
              unique_count :=
                some (dedupVals ((colVals t c).filter (fun v => !v.isNull))).length,
              sample_values :=
                some ((dedupVals ((colVals t c).filter (fun v => !v.isNull))).take 10) } :
              ColInfo))
          ∈ get_csv_schema t) ∧
      ((dedupVals ((colVals t c).filter (fun v => !v.isNull))).take 10).length = 10) := by
  constructor
  · intro h50
    have hinfo : infoOf (colVals t c) =
        { type := "object",
          unique_values := some (dedupVals ((colVals t c).filter (fun v => !v.isNull))) } := by
      simp only [infoOf, hs, if_true]
      rw [if_pos h50]
    rw [← hinfo]
    exact List.mem_map.mpr ⟨c, hc, rfl⟩
  · intro h50
    have hinfo : infoOf (colVals t c) =
        { type := "object",
          unique_count := some (dedupVals ((colVals t c).filter (fun v => !v.isNull))).length,
          sample_values :=
            some ((dedupVals ((colVals t c).filter (fun v => !v.isNull))).take 10) } := by
      simp only [infoOf, hs, if_true]
      rw [if_neg (by omega)]
    refine ⟨?_, ?_⟩
    · rw [← hinfo]
      exact List.mem_map.mpr ⟨c, hc, rfl⟩
    · rw [List.length_take]
      omega

set_option maxRecDepth 20000 in
theorem schema_string_column_w :
    (("s" ∈ sixtyTable.cols ∧ isStringLike (colVals sixtyTable "s") = true ∧
      50 < (dedupVals ((colVals sixtyTable "s").filter (fun v => !v.isNull))).length) ∧
     (("s", ({ type := "object",
               unique_count :=
                 some (dedupVals ((colVals sixtyTable "s").filter (fun v => !v.isNull))).length,
               sample_values :=
                 some ((dedupVals ((colVals sixtyTable "s").filter (fun v => !v.isNull))).take 10) } :
               ColInfo))
         ∈ get_csv_schema sixtyTable) ∧
     ((dedupVals ((colVals sixtyTable "s").filter (fun v => !v.isNull))).take 10).length = 10) :=
  ⟨⟨by decide, by decide, by decide⟩,
   (schema_string_column sixtyTable "s" (by decide) (by decide)).2 (by decide)⟩

/-- C5 (amended): with `agg` but no `group_by`, whenever at least one
requested `(column, function)` pair survives (column present, function
supported), the executor returns exactly one record holding only the
synthesized `"{column}_{function}"` fields, each computed over the whole
filtered table.  (When no pair survives, `pd.DataFrame({})` is empty and
the result is `[]`, not a single row — see the counterexample.) -/
theorem agg_without_group_by_single_row (t : Table) (q : Query)
    (aggL : List (String × AggVal)) (rows : List Row)
    (hagg : q.agg = some aggL) (hgb : listTruthy q.group_by = false)
    (hw : applyWhere t.cols q.whereClause t.rows = .ok rows)
    (hne : aggPairs t.cols aggL ≠ []) :
    query_csv_data t q = .ok [(aggPairs t.cols aggL).map (fun p =>
      (p.1, aggApply p.2.2 (rows.map (fun r => cellOf t.cols r p.2.1))))] ∧
    ∀ nm ∈ (aggPairs t.cols aggL).map (fun p => p.1), ∃ c2 f,
      t.cols.contains c2 = true ∧ supportedAgg f = true ∧ nm = c2 ++ "_" ++ f := by
  have haggL : aggL ≠ [] := by
    intro h
    apply hne
    rw [h]
    rfl
  constructor
  · have hsa : simpleAgg t.cols rows aggL = ((aggPairs t.cols aggL).map (fun p => p.1),
        [(aggPairs t.cols aggL).map (fun p =>
          aggApply p.2.2 (rows.map (fun r => cellOf t.cols r p.2.1)))]) := by
      simp only [simpleAgg]
      rw [if_neg (by simpa [List.isEmpty_iff] using hne)]
    have hpf : preFrame t q = .ok (some (simpleAgg t.cols rows aggL)) := by
      simp only [preFrame, hw]
      rw [hgb, hagg]
      simp [listTruthy, haggL]
    rw [query_csv_data, hpf, hsa]
    show Except.ok (toRecords (applySort ((aggPairs t.cols aggL).map (fun p => p.1),
        [(aggPairs t.cols aggL).map (fun p =>
          aggApply p.2.2 (rows.map (fun r => cellOf t.cols r p.2.1)))])
        q.sort_by q.sort_desc)) = _
    rw [applySort_single]
    simp only [toRecords, List.map_cons, List.map_nil, Except.ok.injEq, List.cons.injEq,
      and_true]
    rw [List.zip_map']
  · intro nm hnm
    rcases List.mem_map.mp hnm with ⟨p, hp, hnmp⟩
    simp only [aggPairs] at hp
    have hp2 := mem_dedupFst _ _ hp
    rcases List.mem_flatten.mp hp2 with ⟨l, hl, hpl⟩
    rcases List.mem_map.mp hl with ⟨entry, hentry, hle⟩
    rw [← hle] at hpl
    rcases List.mem_filterMap.mp hpl with ⟨f, hf, hsome⟩
    by_cases hsf : supportedAgg f = true
    · rw [if_pos hsf] at hsome
      injection hsome with hpe
      refine ⟨entry.1, f, (List.mem_filter.mp hentry).2, hsf, ?_⟩
      rw [← hnmp, ← hpe]
    · rw [if_neg hsf] at hsome
      cases hsome

theorem agg_without_group_by_single_row_w :
    query_csv_data fiverrTable
        { agg := some [("Earnings", AggVal.many ["sum", "count"])] } =
      .ok [(aggPairs fiverrTable.cols [("Earnings", AggVal.many ["sum", "count"])]).map
        (fun p => (p.1, aggApply p.2.2
          (fiverrTable.rows.map (fun r => cellOf fiverrTable.cols r p.2.1))))] ∧
    ∀ nm ∈ (aggPairs fiverrTable.cols
        [("Earnings", AggVal.many ["sum", "count"])]).map (fun p => p.1), ∃ c2 f,
      fiverrTable.cols.contains c2 = true ∧ supportedAgg f = true ∧ nm = c2 ++ "_" ++ f :=
  agg_without_group_by_single_row fiverrTable
    { agg := some [("Earnings", AggVal.many ["sum", "count"])] }
    [("Earnings", AggVal.many ["sum", "count"])] fiverrTable.rows rfl rfl rfl (by decide)

/-- C5 (counterexample to the claim as stated): aggregating only over a
column absent from the table produces no aggregate field, and the result is
the empty list — not "exactly one output row". -/
theorem agg_without_group_by_counterexample :
    query_csv_data fiverrTable { agg := some [("Nope", AggVal.one "sum")] } = .ok [] ∧
    ∀ rec, query_csv_data fiverrTable { agg := some [("Nope", AggVal.one "sum")] } ≠
      .ok [rec] := by
  have h : query_csv_data fiverrTable { agg := some [("Nope", AggVal.one "sum")] } =
      .ok [] := by rfl
  refine ⟨h, ?_⟩
  intro rec hr
  rw [h] at hr
  simp at hr

/-- C2 (amended): for `group_by: [g]`, `agg: {c: "sum"}` with `g`, `c` table
columns, the output has one record per distinct *non-null* value of `g`
among the filtered rows (`groupby` drops null keys), and every record is
`{g: v, "{c}_sum": sum of c over the filtered rows whose g equals v}`.  On
the concrete freelancing table this yields the Fiverr/Upwork sums of the
spec (see the witness). -/
theorem grouped_sum_shape (t : Table) (q : Query) (g c : String) (frows : List Row)
    (hg : t.cols.contains g = true) (hc : t.cols.contains c = true)
    (hgb : q.group_by = some [g]) (hagg : q.agg = some [(c, AggVal.one "sum")])
    (hw : applyWhere t.cols q.whereClause t.rows = .ok frows) :
    ∃ recs, query_csv_data t q = .ok recs ∧
      recs.length = (nonNullKeys t.cols frows g).length ∧
      ∀ rec ∈ recs, ∃ v ∈ nonNullKeys t.cols frows g,
        rec = [(g, v), (c ++ "_sum",
          pdSum ((frows.filter (fun r => cellOf t.cols r g == v)).map
            (fun r => cellOf t.cols r c)))] := by
  have haggApply : ∀ vs, aggApply "sum" vs = pdSum vs := fun vs => rfl
  have hga : groupAgg t.cols frows [g] [(c, AggVal.one "sum")] =
      .ok ([g, c ++ "_sum"],
        (sortLeList keyLe ((nonNullKeys t.cols frows g).map (fun v => [v]))).map
          (fun k => k ++ [pdSum ((frows.filter (fun r => keyOf t.cols [g] r == k)).map
            (fun r => cellOf t.cols r c))])) := by
    have mg : g ∈ t.cols := by simpa using hg
    have mc : c ∈ t.cols := by simpa using hc
    have hc1 : (!([g].all (fun g2 => t.cols.contains g2))) = false := by
      simp [hg, mg]
    have hss : supportedAgg "sum" = true := rfl
    have hpairs : aggPairs t.cols [(c, AggVal.one "sum")] = [(c ++ "_sum", c, "sum")] := by
      simp [aggPairs, funcsOf, dedupFst, hc, mc, hss]
      rw [String.append_assoc]
      congr 1
    simp only [groupAgg, hc1, Bool.false_eq_true, if_false, hpairs, List.isEmpty_cons,
      List.map_cons, List.map_nil, keyOf, List.any_cons, List.any_nil, Bool.or_false,
      haggApply, List.singleton_append, nonNullKeys]
    rw [filterMap_if_singleton frows (fun r => cellOf t.cols r g),
      dedupKeys_map_singleton]
  have hpf : preFrame t q = .ok (some ([g, c ++ "_sum"],
      (sortLeList keyLe ((nonNullKeys t.cols frows g).map (fun v => [v]))).map
        (fun k => k ++ [pdSum ((frows.filter (fun r => keyOf t.cols [g] r == k)).map
          (fun r => cellOf t.cols r c))]))) := by
    simp only [preFrame, hw]
    rw [hgb, hagg]
    simp only [listTruthy, List.isEmpty_cons, Bool.not_false, Bool.and_self, if_true,
      Option.getD_some]
    rw [hga]
  have hq : query_csv_data t q = .ok (toRecords (applySort ([g, c ++ "_sum"],
      (sortLeList keyLe ((nonNullKeys t.cols frows g).map (fun v => [v]))).map
        (fun k => k ++ [pdSum ((frows.filter (fun r => keyOf t.cols [g] r == k)).map
          (fun r => cellOf t.cols r c))])) q.sort_by q.sort_desc)) := by
    rw [query_csv_data, hpf]
  refine ⟨_, hq, ?_, ?_⟩
  · simp only [toRecords, List.length_map, length_applySort, length_sortLeList]
  · intro rec hrec
    simp only [toRecords] at hrec
    rcases List.mem_map.mp hrec with ⟨r, hr, hzip⟩
    rw [mem_applySort] at hr
    rcases List.mem_map.mp hr with ⟨k, hk, hkr⟩
    rw [mem_sortLeList] at hk
    rcases List.mem_map.mp hk with ⟨v, hv, hkv⟩
    refine ⟨v, hv, ?_⟩
    rw [← hzip, applySort_cols, ← hkr, ← hkv]
    have hfil : frows.filter (fun r2 => keyOf t.cols [g] r2 == [v]) =
        frows.filter (fun r2 => cellOf t.cols r2 g == v) := by
      apply List.filter_congr
      intro r2 _
      show (keyOf t.cols [g] r2 == [v]) = (cellOf t.cols r2 g == v)
      by_cases h : cellOf t.cols r2 g = v
      · simp [keyOf, h]
      · simp [keyOf, h]
    rw [hfil]
    simp [List.zip]

set_option maxRecDepth 20000 in
theorem grouped_sum_shape_w :
    (∃ recs, query_csv_data fiverrTable
        { group_by := some ["Platform"], agg := some [("Earnings", AggVal.one "sum")] } =
        .ok recs ∧
      recs.length = (nonNullKeys fiverrTable.cols fiverrTable.rows "Platform").length ∧
      ∀ rec ∈ recs, ∃ v ∈ nonNullKeys fiverrTable.cols fiverrTable.rows "Platform",
        rec = [("Platform", v), ("Earnings" ++ "_sum",
          pdSum ((fiverrTable.rows.filter
            (fun r => cellOf fiverrTable.cols r "Platform" == v)).map
            (fun r => cellOf fiverrTable.cols r "Earnings")))]) ∧
    query_csv_data fiverrTable
        { group_by := some ["Platform"], agg := some [("Earnings", AggVal.one "sum")] } =
      .ok [[("Platform", .vStr "Fiverr"), ("Earnings_sum", .vInt 400)],
           [("Platform", .vStr "Upwork"), ("Earnings_sum", .vInt 200)]] :=
  ⟨grouped_sum_shape fiverrTable
      { group_by := some ["Platform"], agg := some [("Earnings", AggVal.one "sum")] }
      "Platform" "Earnings" fiverrTable.rows rfl rfl rfl rfl rfl,
   by rfl⟩

/-- C2 (counterexample to the claim as stated): on a table whose only row
has a null `g`, grouping produces zero output records while the number of
distinct values of `g` among the (filtered) rows is one — `groupby` drops
null keys, so "the number of distinct values of g" overcounts. -/
theorem grouped_sum_counterexample :
    query_csv_data nullKeyTable
        { group_by := some ["g"], agg := some [("c", AggVal.one "sum")] } = .ok [] ∧
    (dedupVals (nullKeyTable.rows.map (fun r => cellOf nullKeyTable.cols r "g"))).length
      = 1 := by
  constructor
  · rfl
  · rfl
